import Mathlib

/-!
Verification of the pye_vt editor (MicroPython text editor, `pye_vt.py`).

The development shallowly embeds the parts of the editor that the checked
properties are about: Python strings become `List Char`, Python lists become
Lean lists, Python `int`s become `Int`, and each relevant method of the
`Editor` class becomes a pure state-passing function over the `Ed` structure.
Python list/str slicing (including negative indices and slice assignment) is
reproduced by the `pySlice`/`pySetSlice`/`pySet` helpers below.
-/

namespace PyeVt

/-- Python strings are modelled as lists of characters. -/
abbrev PyStr := List Char

/-- Shorthand for turning a Lean string literal into a modelled Python string. -/
def pyS (s : String) : PyStr := s.toList

/-- Resolve a (possibly negative) Python slice bound against a list of length
`n`: negative bounds count from the end, and the result is clamped into
`[0, n]`. -/
def normIdx (n : Nat) (i : Int) : Nat :=
  (min (if i < 0 then (n : Int) + i else i) (n : Int)).toNat

/-- Python `xs[a:b]`. -/
def pySlice {α : Type} (xs : List α) (a b : Int) : List α :=
  (xs.drop (normIdx xs.length a)).take (normIdx xs.length b - normIdx xs.length a)

/-- Python `xs[:b]`. -/
def pySliceTo {α : Type} (xs : List α) (b : Int) : List α :=
  xs.take (normIdx xs.length b)

/-- Python `xs[a:]`. -/
def pySliceFrom {α : Type} (xs : List α) (a : Int) : List α :=
  xs.drop (normIdx xs.length a)

/-- Python slice assignment `xs[a:b] = ys` (when `a` resolves past `b` the
assignment inserts at `a`, which is what `max` reproduces). -/
def pySetSlice {α : Type} (xs : List α) (a b : Int) (ys : List α) : List α :=
  xs.take (normIdx xs.length a) ++ ys ++ xs.drop (max (normIdx xs.length a) (normIdx xs.length b))

/-- Python `del xs[a:b]`. -/
def pyDelSlice {α : Type} (xs : List α) (a b : Int) : List α :=
  pySetSlice xs a b []

/-- Resolve a (possibly negative) Python element index; `none` models the
`IndexError` case. -/
def pyIdx (n : Nat) (i : Int) : Option Nat :=
  if 0 ≤ i then (if i < (n : Int) then some i.toNat else none)
  else (if -i ≤ (n : Int) then some (n - (-i).toNat) else none)

/-- Python `xs[i]` (with the default returned in the `IndexError` case; all
theorems below keep indices in range). -/
def pyGet {α : Type} (xs : List α) (i : Int) (d : α) : α :=
  match pyIdx xs.length i with
  | some j => xs.getD j d
  | none => d

/-- Python element assignment `xs[i] = v` (unchanged in the `IndexError`
case; all theorems below keep indices in range). -/
def pySet {α : Type} (xs : List α) (i : Int) (v : α) : List α :=
  match pyIdx xs.length i with
  | some j => xs.set j v
  | none => xs

/-- Key code constants, from the `#else` branch of the source's DEFINES block. -/
def KEY_NONE : Int := 0
def KEY_UP : Int := 0x0b
def KEY_DOWN : Int := 0x0d
def KEY_LEFT : Int := 0x1f
def KEY_RIGHT : Int := 0x1e
def KEY_HOME : Int := 0x10
def KEY_END : Int := 0x03
def KEY_PGUP : Int := 0xfff1
def KEY_PGDN : Int := 0xfff2
def KEY_QUIT : Int := 0x11
def KEY_ENTER : Int := 0x0a
def KEY_BACKSPACE : Int := 0x08
def KEY_DELETE : Int := 0x7f
def KEY_WRITE : Int := 0x13
def KEY_TAB : Int := 0x09
def KEY_BACKTAB : Int := 0x15
def KEY_FIND : Int := 0x06
def KEY_GOTO : Int := 0x07
def KEY_MOUSE : Int := 0x1b
def KEY_SCRLUP : Int := 0x1c
def KEY_SCRLDN : Int := 0x1d
def KEY_FIND_AGAIN : Int := 0x0e
def KEY_REDRAW : Int := 0x05
def KEY_UNDO : Int := 0x1a
def KEY_YANK : Int := 0x18
def KEY_ZAP : Int := 0x16
def KEY_DUP : Int := 0x04
def KEY_FIRST : Int := 0x14
def KEY_LAST : Int := 0x02
def KEY_REPLC : Int := 0x12
def KEY_TOGGLE : Int := 0x01
def KEY_GET : Int := 0x0f
def KEY_MARK : Int := 0x0c
def KEY_NEXT : Int := 0x17
def KEY_MATCH : Int := 0xfffd
def KEY_INDENT : Int := 0xfffe
def KEY_UNDENT : Int := 0xffff

/-- One undo record: the tuple `(lnum, span, text, key, col)` appended by
`Editor.undo_add` (`text` is `None` for the paste record pushed by KEY_ZAP). -/
structure URec where
  lnum : Int
  span : Int
  text : Option (List PyStr)
  key : Int
  col : Int
  deriving Repr, DecidableEq

/-- The editor state: the instance attributes of class `Editor` plus the
class-shared attributes (`yank_buffer`, `find_pattern`).  The flag attributes
that the source stores as the strings `"y"`/`"n"` are modelled as the single
character they hold; the source's `case` attribute is called `case_flag`
(`case` is reserved in Lean). -/
structure Ed where
  content : List PyStr
  total_lines : Int
  cur_line : Int
  col : Int
  top_line : Int
  row : Int
  margin : Int
  height : Int
  width : Int
  mark : Option Int
  undo : List URec
  undo_limit : Int
  undo_zero : Int
  changed : PyStr
  message : PyStr
  fname : PyStr
  tab_size : Int
  autoindent : Char
  case_flag : Char
  write_tabs : Char
  yank_buffer : List PyStr
  find_pattern : PyStr
  deriving Repr, DecidableEq

/-- The state-mutating prologue of `Editor.display_window` (source lines
372-384): clamp `cur_line` and `col`, re-align `margin` horizontally
(`self.width >> 2` is floor division by 4, hence `Int.fdiv`), re-anchor
`top_line` when the cursor left the window, and recompute `row`.  The rest of
`display_window` only writes escape sequences to the terminal. -/
def display_window_adjust (s : Ed) : Ed :=
  let cur_line := min (s.total_lines - 1) (max s.cur_line 0)
  let col := max 0 (min s.col ((pyGet s.content cur_line []).length : Int))
  let margin :=
    if s.width + s.margin ≤ col then col - s.width + Int.fdiv s.width 4
    else if col < s.margin then max (col - Int.fdiv s.width 4) 0
    else s.margin
  let top_line :=
    if ¬ (s.top_line ≤ cur_line ∧ cur_line < s.top_line + s.height) then
      max (cur_line - s.row) 0
    else s.top_line
  { s with cur_line := cur_line, col := col, margin := margin,
           top_line := top_line, row := cur_line - top_line }

/-- C1: after a full render pass (`display_window`), the viewport invariants
hold: `cur_line` has been clamped into `[0, total_lines)` and `col` into
`[0, len(current_line)]`, `top_line ≤ cur_line < top_line + height`, and
`margin ≤ col < margin + width` (the upper bound stated for a current line at
least `width` characters long).  The hypotheses are the well-formedness facts
every reachable state satisfies: `total_lines` caches the line count, the
document is never empty, `row` lies inside the window, `margin` and
`top_line` are nonnegative, and the terminal is at least four columns wide. -/
theorem C1_viewport_invariant (s : Ed)
    (hlen : s.total_lines = (s.content.length : Int))
    (hne : 1 ≤ s.total_lines)
    (hrow0 : 0 ≤ s.row) (hrowh : s.row < s.height)
    (hmargin : 0 ≤ s.margin) (htop : 0 ≤ s.top_line)
    (hw : 4 ≤ s.width) :
    (0 ≤ (display_window_adjust s).cur_line ∧
      (display_window_adjust s).cur_line < s.total_lines) ∧
    (0 ≤ (display_window_adjust s).col ∧
      (display_window_adjust s).col ≤
        ((pyGet s.content (display_window_adjust s).cur_line []).length : Int)) ∧
    ((display_window_adjust s).top_line ≤ (display_window_adjust s).cur_line ∧
      (display_window_adjust s).cur_line < (display_window_adjust s).top_line + s.height) ∧
    (display_window_adjust s).margin ≤ (display_window_adjust s).col ∧
    (s.width ≤ ((pyGet s.content (display_window_adjust s).cur_line []).length : Int) →
      (display_window_adjust s).col < (display_window_adjust s).margin + s.width) := by
  have hq1 := Int.fdiv_add_fmod s.width 4
  have hq2 : 0 ≤ s.width.fmod 4 := Int.fmod_nonneg (by omega) (by omega)
  have hq3 : s.width.fmod 4 < 4 := Int.fmod_lt_of_pos s.width (by omega)
  unfold display_window_adjust
  dsimp only
  split_ifs <;> refine ⟨by omega, by omega, by omega, by omega, fun hwide => by omega⟩

/-- A concrete, well-formed editor state used to instantiate witness
theorems. -/
def edBase : Ed :=
  { content := [pyS "hello"], total_lines := 1, cur_line := 0, col := 0,
    top_line := 0, row := 0, margin := 0, height := 5, width := 20,
    mark := none, undo := [], undo_limit := 50, undo_zero := 0,
    changed := [], message := [], fname := [], tab_size := 4,
    autoindent := 'y', case_flag := 'n', write_tabs := 'n',
    yank_buffer := [], find_pattern := [] }

/-- Witness for C1 at the concrete state `edBase`. -/
theorem C1_viewport_invariant_witness :
    4 ≤ edBase.width ∧
      (display_window_adjust edBase).top_line ≤ (display_window_adjust edBase).cur_line :=
  ⟨by decide,
    (C1_viewport_invariant edBase (by decide) (by decide) (by decide) (by decide)
      (by decide) (by decide) (by decide)).2.2.1.1⟩

/-- The guard of the `if` in `Editor.undo_add` (source lines 478-479), deciding
whether a new record is pushed; its negation is the coalescing ("merge")
case.  `undo[-1][3]` is the record's `key` field and `undo[-1][0]` its
`lnum` field. -/
def undo_push_cond (s : Ed) (lnum : Int) (key : Int) : Bool :=
  s.undo.isEmpty || key == KEY_NONE ||
    (match s.undo.getLast? with
     | some r => r.key != key || r.lnum != lnum
     | none => true)

/-- `Editor.undo_add` (source lines 476-483): set the changed flag, and if
undo is enabled and the record does not coalesce into the last one, push
`(lnum, span, text, key, col)`, dropping the oldest record (and decrementing
`undo_zero`) when the log is full. -/
def undo_add (s : Ed) (lnum : Int) (text : Option (List PyStr)) (key : Int)
    (span : Int) : Ed :=
  let s1 := { s with changed := pyS "*" }
  if 0 < s1.undo_limit ∧ undo_push_cond s1 lnum key then
    let s2 :=
      if s1.undo_limit ≤ (s1.undo.length : Int) then
        { s1 with undo := s1.undo.drop 1, undo_zero := s1.undo_zero - 1 }
      else s1
    { s2 with undo := s2.undo ++ [⟨lnum, span, text, key, s2.col⟩] }
  else s1

/-- C2: with undo enabled, `undo_add` merges the new record into the last one
(i.e. pushes no new entry, leaving the log unchanged) if and only if the log
is non-empty, the merge key is not `KEY_NONE`, and the last record's `lnum`
and `key` equal the new record's. -/
theorem C2_undo_merge_iff (s : Ed) (lnum key : Int) (_hEnabled : 0 < s.undo_limit) :
    (undo_push_cond s lnum key = false ↔
      key ≠ KEY_NONE ∧ ∃ r, s.undo.getLast? = some r ∧ r.lnum = lnum ∧ r.key = key) ∧
    ∀ text span, undo_push_cond s lnum key = false →
      (undo_add s lnum text key span).undo = s.undo := by
  constructor
  · unfold undo_push_cond
    cases hlast : s.undo.getLast? with
    | none =>
      have : s.undo = [] := List.getLast?_eq_none_iff.mp hlast
      simp [this]
    | some r =>
      have : ¬ s.undo.isEmpty := by
        cases hu : s.undo with
        | nil => rw [hu] at hlast; simp at hlast
        | cons a l => simp
      simp only [this, Bool.false_or, Bool.or_eq_false_iff, beq_eq_false_iff_ne,
        bne_eq_false_iff_eq]
      constructor
      · rintro ⟨hk, hrk, hrl⟩
        exact ⟨hk, r, rfl, hrl, hrk⟩
      · rintro ⟨hk, r', hr', hrl, hrk⟩
        cases Option.some.inj hr'
        exact ⟨hk, hrk, hrl⟩
  · intro text span hcond
    unfold undo_add
    have hcond' : undo_push_cond { s with changed := pyS "*" } lnum key = false := hcond
    rw [if_neg]
    simp only [hcond']
    simp

/-- Concrete state for the C2 witness: one prior single-character-insertion
record at line 0 with merge key `0x41`. -/
def edC2 : Ed :=
  { edBase with content := [pyS "x"], col := 1,
                undo := [⟨0, 1, some [[]], 0x41, 0⟩] }

/-- Witness for C2: at `edC2` a further non-space character insertion record
at line 0 coalesces, and `undo_add` leaves the log unchanged. -/
theorem C2_undo_merge_iff_witness :
    0 < edC2.undo_limit ∧ undo_push_cond edC2 0 0x41 = false ∧
      (undo_add edC2 0 (some [pyS "x"]) 0x41 1).undo = edC2.undo :=
  ⟨by decide, by decide,
    (C2_undo_merge_iff edC2 0 0x41 (by decide)).2 (some [pyS "x"]) 1 (by decide)⟩

/-- The printable-character branch of `Editor.handle_edit_keys` (source lines
566-570, guarded by `0x20 <= key < 0xfff0` after the earlier branches):
clear the mark, push an undo record whose merge key distinguishes space from
other characters, insert `chr(key)` at the cursor and advance the column.
`l` is `self.content[self.cur_line]`, bound at the top of the handler. -/
def insertChar (s : Ed) (key : Int) : Ed :=
  let l := pyGet s.content s.cur_line []
  let s1 := undo_add { s with mark := none } s.cur_line (some [l])
    (if key == 0x20 then 0x20 else 0x41) 1
  { s1 with
    content := pySet s1.content s.cur_line
      (pySliceTo l s.col ++ [Char.ofNat key.toNat] ++ pySliceFrom l s.col),
    col := s.col + 1 }

/-- The `KEY_UNDO` branch of `Editor.handle_edit_keys` (source lines 777-793):
pop the most recent record; unless it is an indent-group record restore the
cursor line and column from it; a record with `span >= 0` re-inserts its
saved lines at `lnum` (appending when `lnum` is past the end), a record with
`span < 0` deletes `-span` lines at `lnum`; then recompute `total_lines`,
clear the changed flag when the log is back at the zero point, and clear the
mark. -/
def undoStep (s : Ed) : Ed :=
  match s.undo.getLast? with
  | none => s
  | some action =>
    let s1 := { s with undo := s.undo.dropLast }
    let s2 :=
      if action.key ≠ KEY_INDENT then
        { s1 with cur_line := action.lnum, col := action.col }
      else s1
    let s3 :=
      if 0 ≤ action.span then
        if action.lnum < s2.total_lines then
          { s2 with
            content := pySetSlice s2.content action.lnum (action.lnum + action.span)
              (action.text.getD []) }
        else
          { s2 with content := s2.content ++ action.text.getD [] }
      else
        { s2 with content := pyDelSlice s2.content action.lnum (action.lnum - action.span) }
    let s4 := { s3 with total_lines := (s3.content.length : Int) }
    let s5 :=
      if (s4.undo.length : Int) = s4.undo_zero then { s4 with changed := [] } else s4
    { s5 with mark := none }

/-- Apply a sequence of insertion key events. -/
def insertRun (s : Ed) (ks : List Int) : Ed := ks.foldl insertChar s

/-- Apply `n` Undo key events. -/
def undoRun (s : Ed) : Nat → Ed
  | 0 => s
  | n + 1 => undoRun (undoStep s) n

theorem normIdx_eq (n : Nat) (i : Int) (h0 : 0 ≤ i) (h1 : i ≤ (n : Int)) :
    normIdx n i = i.toNat := by
  unfold normIdx
  rw [if_neg (by omega)]
  omega

theorem pySet_eq_set {α : Type} (xs : List α) (i : Int) (v : α)
    (h0 : 0 ≤ i) (h1 : i < (xs.length : Int)) :
    pySet xs i v = xs.set i.toNat v := by
  unfold pySet pyIdx
  rw [if_pos h0, if_pos h1]

theorem pyGet_eq_getD {α : Type} (xs : List α) (i : Int) (d : α)
    (h0 : 0 ≤ i) (h1 : i < (xs.length : Int)) :
    pyGet xs i d = xs.getD i.toNat d := by
  unfold pyGet pyIdx
  rw [if_pos h0, if_pos h1]

theorem undoRun_of_empty (s : Ed) (h : s.undo = []) : ∀ n, undoRun s n = s := by
  intro n
  induction n with
  | zero => rfl
  | succ m ih =>
    have hstep : undoStep s = s := by
      unfold undoStep
      rw [h]
      rfl
    show undoRun (undoStep s) m = s
    rw [hstep, ih]

theorem pySetSlice_single {α : Type} (xs : List α) (i : Int) (t : α)
    (h0 : 0 ≤ i) (h1 : i < (xs.length : Int)) :
    pySetSlice xs i (i + 1) [t] = xs.set i.toNat t := by
  unfold pySetSlice
  rw [normIdx_eq _ _ h0 (by omega), normIdx_eq _ _ (by omega) (by omega)]
  have hmax : max i.toNat (i + 1).toNat = i.toNat + 1 := by omega
  rw [hmax, List.set_eq_take_cons_drop _ (by omega)]
  simp

theorem pySet_length {α : Type} (xs : List α) (i : Int) (v : α) :
    (pySet xs i v).length = xs.length := by
  unfold pySet
  cases pyIdx xs.length i <;> simp

theorem pySet_pySet {α : Type} (xs : List α) (i : Int) (a b : α)
    (h0 : 0 ≤ i) (h1 : i < (xs.length : Int)) :
    pySet (pySet xs i a) i b = pySet xs i b := by
  rw [pySet_eq_set _ _ _ h0 h1, pySet_eq_set _ _ _ h0 (by simp; omega),
      pySet_eq_set _ _ _ h0 h1, List.set_set]

theorem pySet_pyGet_self {α : Type} (xs : List α) (i : Int) (d : α)
    (h0 : 0 ≤ i) (h1 : i < (xs.length : Int)) :
    pySet xs i (pyGet xs i d) = xs := by
  rw [pySet_eq_set _ _ _ h0 h1, pyGet_eq_getD _ _ _ h0 h1,
      List.getD_eq_getElem _ _ (by omega)]
  apply List.ext_getElem
  · simp
  · intro j hj1 hj2
    rw [List.getElem_set]
    split
    · subst_vars; rfl
    · rfl

theorem undo_add_fields (s : Ed) (lnum : Int) (text : Option (List PyStr))
    (key span : Int) :
    (undo_add s lnum text key span).content = s.content ∧
    (undo_add s lnum text key span).cur_line = s.cur_line ∧
    (undo_add s lnum text key span).col = s.col ∧
    (undo_add s lnum text key span).total_lines = s.total_lines ∧
    (undo_add s lnum text key span).mark = s.mark ∧
    (undo_add s lnum text key span).undo_limit = s.undo_limit ∧
    (undo_add s lnum text key span).yank_buffer = s.yank_buffer := by
  unfold undo_add
  dsimp only
  split_ifs <;> simp

theorem undo_add_of_empty (s : Ed) (lnum : Int) (text : Option (List PyStr))
    (key span : Int) (h : s.undo = []) (hl : 0 < s.undo_limit) :
    (undo_add s lnum text key span).undo = [⟨lnum, span, text, key, s.col⟩] := by
  unfold undo_add
  dsimp only
  rw [if_pos, if_neg]
  · simp [h]
  · simp [h]; omega
  · refine ⟨hl, ?_⟩
    unfold undo_push_cond
    simp [h]

theorem undo_add_undo_or (s : Ed) (lnum : Int) (text : Option (List PyStr))
    (key span : Int) (hcap : (s.undo.length : Int) < s.undo_limit) :
    (undo_add s lnum text key span).undo = s.undo ∨
    (undo_add s lnum text key span).undo = s.undo ++ [⟨lnum, span, text, key, s.col⟩] := by
  unfold undo_add
  dsimp only
  split_ifs with h1 h2
  · omega
  · right; simp
  · left; rfl

theorem undoStep_simple (s : Ed) (a : URec) (L : Int) (ta : PyStr)
    (hlast : s.undo.getLast? = some a)
    (hal : a.lnum = L) (has : a.span = 1) (hak : a.key ≠ KEY_INDENT)
    (hat : a.text = some [ta])
    (h0 : 0 ≤ L) (h1 : L < (s.content.length : Int))
    (htot : s.total_lines = (s.content.length : Int)) :
    (undoStep s).undo = s.undo.dropLast ∧
    (undoStep s).content = pySet s.content L ta ∧
    (undoStep s).cur_line = L ∧ (undoStep s).col = a.col ∧
    (undoStep s).mark = none ∧
    (undoStep s).content.length = s.content.length ∧
    (undoStep s).total_lines = ((undoStep s).content.length : Int) := by
  unfold undoStep
  rw [hlast]
  dsimp only
  rw [if_pos hak]
  try dsimp only
  rw [if_pos (show (0:Int) ≤ a.span by omega)]
  try dsimp only
  rw [if_pos (show a.lnum < s.total_lines by rw [hal, htot]; exact h1)]
  try dsimp only
  rw [hal, has, hat]
  dsimp only [Option.getD_some]
  rw [pySetSlice_single _ _ _ h0 h1, ← pySet_eq_set _ _ _ h0 h1]
  split_ifs <;>
    exact ⟨rfl, rfl, rfl, rfl, rfl, by rw [pySet_length], by rw [pySet_length]⟩

/-- Shape of the undo records created by character insertion: a span-1
replacement record at line `L` that is not an indent-group record and saves
exactly one line. -/
def SimpleRec (L : Int) (r : URec) : Prop :=
  r.lnum = L ∧ r.span = 1 ∧ r.key ≠ KEY_INDENT ∧ ∃ t, r.text = some [t]

/-- Invariant relating the state after some character insertions to the
pre-insertion state `s0`: the cursor line, line count and undo budget are
unchanged, re-setting the cursor line to its original text recovers `s0`'s
content, and the undo log is either still empty (nothing inserted) or a
stack of `SimpleRec`s whose bottom record restores the original line, column
and (cleared) mark. -/
def InsInv (s0 s : Ed) : Prop :=
  s.cur_line = s0.cur_line ∧
  s.content.length = s0.content.length ∧
  s.total_lines = s0.total_lines ∧
  s.undo_limit = s0.undo_limit ∧
  pySet s.content s0.cur_line (pyGet s0.content s0.cur_line []) = s0.content ∧
  ((s.undo = [] ∧ s.content = s0.content ∧ s.col = s0.col ∧ s.mark = s0.mark) ∨
   (∃ k0 rest,
      s.undo =
        (⟨s0.cur_line, 1, some [pyGet s0.content s0.cur_line []], k0, s0.col⟩ : URec) :: rest ∧
      k0 ≠ KEY_INDENT ∧ (∀ r ∈ rest, SimpleRec s0.cur_line r) ∧ s.mark = none))

theorem insertChar_inv (s0 s : Ed) (k : Int)
    (hcl : 0 ≤ s0.cur_line) (hcl2 : s0.cur_line < (s0.content.length : Int))
    (hinv : InsInv s0 s)
    (hcap : (s.undo.length : Int) < s.undo_limit) :
    InsInv s0 (insertChar s k) ∧ (insertChar s k).undo.length ≤ s.undo.length + 1 := by
  obtain ⟨hc, hlen, htot, hlim, hset, hlog⟩ := hinv
  set L := s0.cur_line with hL
  set l0 := pyGet s0.content L [] with hl0
  set key' : Int := if k == 0x20 then 0x20 else 0x41 with hkey'
  have hkey'0 : key' ≠ KEY_NONE := by
    rw [hkey']; unfold KEY_NONE; split <;> omega
  have hkey'i : key' ≠ KEY_INDENT := by
    rw [hkey']; unfold KEY_INDENT; split <;> omega
  set sm : Ed := { s with mark := none } with hsm
  have hsmu : sm.undo = s.undo := rfl
  set l := pyGet s.content s.cur_line [] with hl
  set s1 := undo_add sm s.cur_line (some [l]) key' 1 with hs1
  have hf := undo_add_fields sm s.cur_line (some [l]) key' 1
  have hins : insertChar s k =
      { s1 with
        content := pySet s1.content s.cur_line
          (pySliceTo l s.col ++ [Char.ofNat k.toNat] ++ pySliceFrom l s.col),
        col := s.col + 1 } := rfl
  have hbound : 0 ≤ s.cur_line ∧ s.cur_line < (s.content.length : Int) := by
    rw [hc, hlen]; exact ⟨hcl, hcl2⟩
  have hcont1 : s1.content = s.content := hf.1
  have hnewlen : (insertChar s k).content.length = s.content.length := by
    rw [hins]; dsimp only; rw [pySet_length, hcont1]
  have hnewset : pySet (insertChar s k).content L l0 = s0.content := by
    rw [hins]; dsimp only
    rw [hcont1, hc, pySet_pySet _ _ _ _ (hc ▸ hbound.1) (hc ▸ hbound.2)]
    · exact hset
  have hmarknone : (insertChar s k).mark = none := by
    rw [hins]
    exact hf.2.2.2.2.1.trans rfl
  have hlog' :
      (((insertChar s k).undo = [] ∧ (insertChar s k).content = s0.content ∧
        (insertChar s k).col = s0.col ∧ (insertChar s k).mark = s0.mark) ∨
      (∃ k0 rest,
        (insertChar s k).undo = (⟨L, 1, some [l0], k0, s0.col⟩ : URec) :: rest ∧
        k0 ≠ KEY_INDENT ∧ (∀ r ∈ rest, SimpleRec L r) ∧ (insertChar s k).mark = none)) ∧
      (insertChar s k).undo.length ≤ s.undo.length + 1 := by
    rcases hlog with ⟨hu0, hcs, hcol, _hm⟩ | ⟨k0, rest, hu, hk0, hrest, _hm⟩
    · have hpush := undo_add_of_empty sm s.cur_line (some [l]) key' 1
        (by rw [hsmu, hu0])
        (by show 0 < sm.undo_limit
            rw [show sm.undo_limit = s.undo_limit from rfl]
            omega)
      refine ⟨Or.inr ⟨key', [], ?_, hkey'i, by simp, hmarknone⟩, ?_⟩
      · rw [hins]
        show s1.undo = _
        rw [hs1, hpush]
        have hll : l = l0 := by rw [hl, hl0, hcs, hc]
        have hcc : sm.col = s0.col := hcol
        rw [hll, ← hcc, hc]
      · rw [hins]
        show s1.undo.length ≤ s.undo.length + 1
        rw [hs1, hpush, hu0]
        simp
    · have hor := undo_add_undo_or sm s.cur_line (some [l]) key' 1
        (by rw [hsmu]; exact hcap)
      rcases hor with heq | heq
      · refine ⟨Or.inr ⟨k0, rest, ?_, hk0, hrest, hmarknone⟩, ?_⟩
        · rw [hins]
          show s1.undo = _
          rw [hs1, heq, hsmu, hu]
        · rw [hins]
          show s1.undo.length ≤ s.undo.length + 1
          rw [hs1, heq, hsmu]
          omega
      · refine ⟨Or.inr ⟨k0, rest ++ [⟨s.cur_line, 1, some [l], key', sm.col⟩], ?_, hk0, ?_,
          hmarknone⟩, ?_⟩
        · rw [hins]
          show s1.undo = _
          rw [hs1, heq, hsmu, hu]
          rfl
        · intro r hr
          rcases List.mem_append.mp hr with hr | hr
          · exact hrest r hr
          · have : r = ⟨s.cur_line, 1, some [l], key', sm.col⟩ := List.mem_singleton.mp hr
            rw [this]
            exact ⟨hc, rfl, hkey'i, ⟨l, rfl⟩⟩
        · rw [hins]
          show s1.undo.length ≤ s.undo.length + 1
          rw [hs1, heq, hsmu]
          simp
  refine ⟨⟨?_, ?_, ?_, ?_, ?_, hlog'.1⟩, hlog'.2⟩
  · rw [hins]; exact hf.2.1.trans hc
  · rw [hnewlen, hlen]
  · rw [hins]; exact hf.2.2.2.1.trans htot
  · rw [hins]; exact hf.2.2.2.2.2.1.trans hlim
  · exact hnewset

theorem insertRun_inv (s0 : Ed)
    (hcl : 0 ≤ s0.cur_line) (hcl2 : s0.cur_line < (s0.content.length : Int)) :
    ∀ (ks : List Int) (s : Ed), InsInv s0 s →
      ((s.undo.length : Int) + ks.length ≤ s0.undo_limit) →
      InsInv s0 (insertRun s ks) ∧
      (insertRun s ks).undo.length ≤ s.undo.length + ks.length := by
  intro ks
  induction ks with
  | nil =>
    intro s hinv _hcap
    exact ⟨hinv, by simp [insertRun]⟩
  | cons k ks ih =>
    intro s hinv hcap
    have hlim : s.undo_limit = s0.undo_limit := hinv.2.2.2.1
    have hcap1 : (s.undo.length : Int) < s.undo_limit := by
      rw [hlim]
      simp only [List.length_cons] at hcap
      push_cast at hcap ⊢
      omega
    have hstep := insertChar_inv s0 s k hcl hcl2 hinv hcap1
    have hrw : insertRun s (k :: ks) = insertRun (insertChar s k) ks := rfl
    have hlim' : (insertChar s k).undo_limit = s0.undo_limit := hstep.1.2.2.2.1
    have hcap' : (((insertChar s k).undo.length : Int) + ks.length ≤ s0.undo_limit) := by
      have h2 := hstep.2
      simp only [List.length_cons] at hcap
      push_cast at hcap ⊢
      omega
    obtain ⟨hinv', hlen'⟩ := ih (insertChar s k) hstep.1 hcap'
    rw [hrw]
    refine ⟨hinv', ?_⟩
    have h2 := hstep.2
    simp only [List.length_cons]
    omega

theorem undoRun_simple (L : Int) :
    ∀ (n : Nat) (s : Ed) (r0 : URec) (rest : List URec) (t0 : PyStr),
      s.undo = r0 :: rest →
      rest.length < n →
      r0.text = some [t0] →
      0 ≤ L → L < (s.content.length : Int) →
      s.total_lines = (s.content.length : Int) →
      (∀ r ∈ s.undo, SimpleRec L r) →
      (undoRun s n).content = pySet s.content L t0 ∧
      (undoRun s n).cur_line = r0.lnum ∧
      (undoRun s n).col = r0.col ∧
      (undoRun s n).mark = none := by
  intro n
  induction n with
  | zero =>
    intro s r0 rest t0 _hu hlt
    omega
  | succ m ih =>
    intro s r0 rest t0 hu hlt ht0 h0 h1 htot hrecs
    rcases List.eq_nil_or_concat rest with hrest | ⟨rest', a, hrest⟩
    · subst hrest
      have hlast : s.undo.getLast? = some r0 := by rw [hu]; rfl
      obtain ⟨hr0l, hr0s, hr0k, _⟩ := hrecs r0 (by rw [hu]; exact List.mem_singleton_self r0)
      have hstep := undoStep_simple s r0 L t0 hlast hr0l hr0s hr0k ht0 h0 h1 htot
      have hempty : (undoStep s).undo = [] := by
        rw [hstep.1, hu]
        rfl
      have hrun : undoRun s (m + 1) = undoRun (undoStep s) m := rfl
      rw [hrun, undoRun_of_empty _ hempty m]
      exact ⟨hstep.2.1, hstep.2.2.1.trans hr0l.symm, hstep.2.2.2.1, hstep.2.2.2.2.1⟩
    · subst hrest
      have hconcat : s.undo = (r0 :: rest') ++ [a] := by
        rw [hu, List.concat_eq_append]
        rfl
      have hlast : s.undo.getLast? = some a := by rw [hconcat, List.getLast?_concat]
      obtain ⟨hal, has, hak, ta, hat⟩ := hrecs a (by rw [hconcat]; simp)
      have hstep := undoStep_simple s a L ta hlast hal has hak hat h0 h1 htot
      have hundo' : (undoStep s).undo = r0 :: rest' := by
        rw [hstep.1, hconcat, List.dropLast_concat]
      have hrun : undoRun s (m + 1) = undoRun (undoStep s) m := rfl
      have hlen' : L < (((undoStep s).content.length : Nat) : Int) := by
        rw [hstep.2.2.2.2.2.1]
        exact h1
      have hrecs' : ∀ r ∈ (undoStep s).undo, SimpleRec L r := by
        intro r hr
        apply hrecs
        rw [hconcat]
        rw [hundo'] at hr
        exact List.mem_append_left _ hr
      obtain ⟨ihc, ihl, ihcol, ihm⟩ := ih (undoStep s) r0 rest' t0 hundo'
        (by simpa using Nat.lt_of_succ_lt_succ (by simpa using hlt)) ht0 h0 hlen'
        hstep.2.2.2.2.2.2 hrecs'
      rw [hrun]
      refine ⟨?_, ihl, ihcol, ihm⟩
      rw [ihc, hstep.2.1, pySet_pySet _ _ _ _ h0 h1]

/-- Concrete state refuting C3: the content is `["x"]` with the cursor after
the `x`, and the undo log already holds a non-space-character insertion
record at line 0 (as left behind by typing the `x`), so the next insertion
coalesces into it. -/
def edC3 : Ed :=
  { edBase with content := [pyS "x"], col := 1,
                undo := [⟨0, 1, some [[]], 0x41, 0⟩] }

/-- C3 counterexample: with undo enabled, inserting one printable character
(`a`, key 0x61) at `edC3` and then applying one Undo does not restore the
pre-insertion line contents (the insertion merged into the pre-existing
record, so the Undo rewinds past the earlier insertion as well). -/
theorem C3_insert_undo_cex :
    0 < edC3.undo_limit ∧
      (undoRun (insertRun edC3 [0x61]) 1).content ≠ edC3.content :=
  ⟨by decide, by decide⟩

/-- C3 (amended): for every document state with undo enabled, an initially
empty undo log and an undo capacity of at least `n`, applying `n`
printable-character insertion key events at the cursor and then `n` Undo key
events restores the line contents, cursor line and cursor column to the
pre-insertion state (the mark being cleared in both runs). -/
theorem C3_insert_undo_amended (s : Ed) (ks : List Int)
    (_hkeys : ∀ k ∈ ks, 0x20 ≤ k ∧ k < 0xfff0 ∧ k ≠ KEY_DELETE)
    (hundo : s.undo = [])
    (hlimit : (ks.length : Int) ≤ s.undo_limit)
    (hcl : 0 ≤ s.cur_line) (hcl2 : s.cur_line < (s.content.length : Int))
    (htot : s.total_lines = (s.content.length : Int))
    (hmark : s.mark = none) :
    (undoRun (insertRun s ks) ks.length).content = s.content ∧
    (undoRun (insertRun s ks) ks.length).cur_line = s.cur_line ∧
    (undoRun (insertRun s ks) ks.length).col = s.col ∧
    (undoRun (insertRun s ks) ks.length).mark = none := by
  have hbase : InsInv s s :=
    ⟨rfl, rfl, rfl, rfl, pySet_pyGet_self _ _ _ hcl hcl2, Or.inl ⟨hundo, rfl, rfl, rfl⟩⟩
  obtain ⟨hinv, hlen⟩ := insertRun_inv s hcl hcl2 ks s hbase
    (by rw [hundo]; simpa using hlimit)
  obtain ⟨hc, hlen2, htot2, _hlim, hset, hlog⟩ := hinv
  rcases hlog with ⟨hu0, hcs, hcol, hm⟩ | ⟨k0, rest, hu, hk0, hrest, _hm⟩
  · rw [undoRun_of_empty _ hu0]
    refine ⟨hcs, hc, hcol, ?_⟩
    rw [hm, hmark]
  · have hrestlen : rest.length < ks.length := by
      rw [hundo] at hlen
      rw [hu] at hlen
      simp at hlen
      omega
    have hlenfin : s.cur_line < (((insertRun s ks).content.length : Nat) : Int) := by
      rw [hlen2]
      exact hcl2
    have htotfin : (insertRun s ks).total_lines = (((insertRun s ks).content.length : Nat) : Int) := by
      rw [htot2, htot, hlen2]
    have hrecs : ∀ r ∈ (insertRun s ks).undo, SimpleRec s.cur_line r := by
      intro r hr
      rw [hu] at hr
      rcases List.mem_cons.mp hr with hr | hr
      · rw [hr]
        exact ⟨rfl, rfl, hk0, ⟨_, rfl⟩⟩
      · exact hrest r hr
    obtain ⟨ihc, ihl, ihcol, ihm⟩ := undoRun_simple s.cur_line ks.length (insertRun s ks)
      _ rest (pyGet s.content s.cur_line []) hu hrestlen rfl hcl hlenfin htotfin hrecs
    exact ⟨ihc.trans hset, ihl, ihcol, ihm⟩

/-- Witness for the amended C3 at `edBase`, inserting `"ab"` then undoing
twice. -/
theorem C3_insert_undo_amended_witness :
    (undoRun (insertRun edBase [0x61, 0x62]) 2).content = edBase.content :=
  (C3_insert_undo_amended edBase [0x61, 0x62] (by decide) rfl (by decide) (by decide)
    (by decide) (by decide) rfl).1

/-- `Editor.line_range` (source lines 422-424): the inclusive mark-to-cursor
line range, normalised and returned as a half-open pair.  The source
compares `self.mark` with the cursor, so its callers guarantee the mark is
set; the `none` case is a dummy value never reached under that guarantee. -/
def line_range (s : Ed) : Int × Int :=
  match s.mark with
  | some m => if m < s.cur_line then (m, s.cur_line + 1) else (s.cur_line, m + 1)
  | none => (0, 0)

/-- `Editor.delete_lines` (source lines 485-495): optionally copy the marked
range to the shared yank buffer, push one span-0 undo record saving the
range, delete the lines, reinstate a single empty line if everything was
wiped, recompute `total_lines`, move the cursor to the range start and clear
the mark. -/
def delete_lines (s : Ed) (yank : Bool) : Ed :=
  let lrange := line_range s
  let s1 :=
    { s with yank_buffer :=
        if yank then pySlice s.content lrange.1 lrange.2 else s.yank_buffer }
  let s2 := undo_add s1 lrange.1 (some (pySlice s1.content lrange.1 lrange.2)) KEY_NONE 0
  let content := pyDelSlice s2.content lrange.1 lrange.2
  let content := if content = [] then [[]] else content
  { s2 with content := content, total_lines := (content.length : Int),
            cur_line := lrange.1, mark := none }

theorem pySlice_eq {α : Type} (xs : List α) (a b : Int)
    (h0 : 0 ≤ a) (hab : a ≤ b) (hbn : b ≤ (xs.length : Int)) :
    pySlice xs a b = (xs.drop a.toNat).take (b.toNat - a.toNat) := by
  unfold pySlice
  rw [normIdx_eq _ _ h0 (by omega), normIdx_eq _ _ (by omega) hbn]

theorem pyDelSlice_eq {α : Type} (xs : List α) (a b : Int)
    (h0 : 0 ≤ a) (hab : a ≤ b) (hbn : b ≤ (xs.length : Int)) :
    pyDelSlice xs a b = xs.take a.toNat ++ xs.drop b.toNat := by
  unfold pyDelSlice pySetSlice
  rw [normIdx_eq _ _ h0 (by omega), normIdx_eq _ _ (by omega) hbn,
      max_eq_right (by omega)]
  simp

theorem take_slice_drop {α : Type} (xs : List α) (na nb : Nat)
    (hab : na ≤ nb) :
    xs.take na ++ ((xs.drop na).take (nb - na) ++ xs.drop nb) = xs := by
  have h1 : xs.drop nb = (xs.drop na).drop (nb - na) := by
    rw [List.drop_drop]
    congr 1
    omega
  rw [h1, List.take_append_drop, List.take_append_drop]

theorem undo_add_getLast (s : Ed) (lnum : Int) (text : Option (List PyStr))
    (span : Int) (hl : 0 < s.undo_limit) :
    (undo_add s lnum text KEY_NONE span).undo.getLast? =
      some ⟨lnum, span, text, KEY_NONE, s.col⟩ := by
  unfold undo_add
  dsimp only
  rw [if_pos]
  · split_ifs <;> simp
  · refine ⟨hl, ?_⟩
    unfold undo_push_cond
    simp [KEY_NONE]

theorem delete_lines_spec (s : Ed) (yank : Bool) (hl : 0 < s.undo_limit) :
    (delete_lines s yank).undo.getLast? =
      some ⟨(line_range s).1, 0, some (pySlice s.content (line_range s).1 (line_range s).2),
            KEY_NONE, s.col⟩ ∧
    (delete_lines s yank).content =
      (if pyDelSlice s.content (line_range s).1 (line_range s).2 = [] then [[]]
       else pyDelSlice s.content (line_range s).1 (line_range s).2) ∧
    (delete_lines s yank).total_lines = ((delete_lines s yank).content.length : Int) := by
  unfold delete_lines
  dsimp only
  refine ⟨undo_add_getLast _ _ _ _ hl, ?_, rfl⟩
  rw [undo_add_fields _ _ _ _ _ |>.1]

theorem undoStep_span0 (s : Ed) (aa : URec) (saved : List PyStr)
    (hlast : s.undo.getLast? = some aa)
    (hak : aa.key ≠ KEY_INDENT) (has : aa.span = 0)
    (hat : aa.text = some saved) :
    (undoStep s).content =
      (if aa.lnum < s.total_lines then pySetSlice s.content aa.lnum aa.lnum saved
       else s.content ++ saved) ∧
    (undoStep s).cur_line = aa.lnum ∧ (undoStep s).col = aa.col ∧
    (undoStep s).mark = none := by
  unfold undoStep
  rw [hlast]
  dsimp only
  rw [if_pos hak]
  try dsimp only
  rw [if_pos (show (0:Int) ≤ aa.span by omega)]
  try dsimp only
  rw [has, hat]
  try dsimp only [Option.getD_some]
  rw [show aa.lnum + 0 = aa.lnum from add_zero _]
  split_ifs with h1 h2 h2 <;> exact ⟨rfl, rfl, rfl, rfl⟩

theorem del_insert_restore {α : Type} (xs : List α) (a b : Int)
    (h0 : 0 ≤ a) (hab : a ≤ b) (hbn : b ≤ (xs.length : Int)) :
    pySetSlice (pyDelSlice xs a b) a a (pySlice xs a b) = xs := by
  rw [pyDelSlice_eq _ _ _ h0 hab hbn, pySlice_eq _ _ _ h0 hab hbn]
  unfold pySetSlice
  have hlen : (xs.take a.toNat ++ xs.drop b.toNat).length =
      a.toNat + (xs.length - b.toNat) := by
    simp only [List.length_append, List.length_take, List.length_drop]
    omega
  rw [normIdx_eq _ _ h0 (by rw [hlen]; push_cast; omega), max_self]
  have hta : (xs.take a.toNat).length = a.toNat := by
    simp only [List.length_take]
    omega
  have h1 : (xs.take a.toNat ++ xs.drop b.toNat).take a.toNat = xs.take a.toNat :=
    List.take_left' hta
  have h2 : (xs.take a.toNat ++ xs.drop b.toNat).drop a.toNat = xs.drop b.toNat :=
    List.drop_left' hta
  rw [h1, h2, List.append_assoc]
  exact take_slice_drop xs a.toNat b.toNat (by omega)

theorem del_append_restore {α : Type} (xs : List α) (a b : Int)
    (h0 : 0 ≤ a) (hab : a ≤ b) (hbN : b = (xs.length : Int)) :
    pyDelSlice xs a b ++ pySlice xs a b = xs := by
  rw [pyDelSlice_eq _ _ _ h0 hab (le_of_eq hbN), pySlice_eq _ _ _ h0 hab (le_of_eq hbN)]
  have hb : b.toNat = xs.length := by omega
  rw [hb, List.drop_length, List.append_nil]
  have h1 : (xs.drop a.toNat).take (xs.length - a.toNat) = xs.drop a.toNat := by
    apply List.take_of_length_le
    simp only [List.length_drop]
    exact le_refl _
  rw [h1, List.take_append_drop]

/-- Concrete state refuting C4: the mark covers the whole two-line document. -/
def edC4 : Ed :=
  { edBase with content := [pyS "a", pyS "b"], total_lines := 2,
                mark := some 0, cur_line := 1 }

/-- C4 counterexample: deleting the marked range when it covers the whole
document and undoing does not restore the original line sequence — the
undo re-inserts the saved lines before the reinstated empty line, yielding
`["a", "b", ""]` instead of `["a", "b"]`. -/
theorem C4_delete_undo_cex :
    edC4.mark = some 0 ∧ 0 < edC4.undo_limit ∧
      (undoStep (delete_lines edC4 false)).content ≠ edC4.content :=
  ⟨rfl, by decide, by decide⟩

/-- C4 (amended): for every document with an active mark and undo enabled,
if the marked range does not cover the entire document, deleting the marked
lines (`delete_lines`, with or without the yank copy) followed by one Undo
restores exactly the deleted lines at their original position, so the line
sequence equals the pre-deletion one.  (When the range covers the whole
document, the reinstated empty line survives the undo, as the
counterexample shows.) -/
theorem C4_delete_undo_amended (s : Ed) (yank : Bool) (m : Int)
    (hmark : s.mark = some m)
    (hm0 : 0 ≤ m) (hm1 : m < (s.content.length : Int))
    (hc0 : 0 ≤ s.cur_line) (hc1 : s.cur_line < (s.content.length : Int))
    (hl : 0 < s.undo_limit)
    (hstrict : (line_range s).2 - (line_range s).1 < (s.content.length : Int)) :
    (undoStep (delete_lines s yank)).content = s.content := by
  obtain ⟨ha0, hab, hbn⟩ : 0 ≤ (line_range s).1 ∧ (line_range s).1 < (line_range s).2 ∧
      (line_range s).2 ≤ (s.content.length : Int) := by
    unfold line_range
    rw [hmark]
    dsimp only
    split_ifs with h <;> exact ⟨by omega, by omega, by omega⟩
  set a := (line_range s).1 with hadef
  set b := (line_range s).2 with hbdef
  have hdel : pyDelSlice s.content a b = s.content.take a.toNat ++ s.content.drop b.toNat :=
    pyDelSlice_eq _ _ _ ha0 (le_of_lt hab) hbn
  have hlen2 : (pyDelSlice s.content a b).length =
      a.toNat + (s.content.length - b.toNat) := by
    rw [hdel]
    simp only [List.length_append, List.length_take, List.length_drop]
    omega
  have hne : pyDelSlice s.content a b ≠ [] := by
    intro h
    rw [h] at hlen2
    simp only [List.length_nil] at hlen2
    omega
  obtain ⟨hgl, hct, htt⟩ := delete_lines_spec s yank hl
  set t := delete_lines s yank with htdef
  have hct' : t.content = pyDelSlice s.content a b := by rw [hct, if_neg hne]
  have hstep := undoStep_span0 t ⟨a, 0, some (pySlice s.content a b), KEY_NONE, s.col⟩
    (pySlice s.content a b) hgl (by show KEY_NONE ≠ KEY_INDENT; decide) rfl rfl
  rw [hstep.1]
  rcases lt_or_eq_of_le hbn with hb | hb
  · rw [if_pos]
    · rw [hct']
      exact del_insert_restore s.content a b ha0 (le_of_lt hab) hbn
    · show a < t.total_lines
      rw [htt, hct', hlen2]
      push_cast
      omega
  · rw [if_neg]
    · rw [hct']
      exact del_append_restore s.content a b ha0 (le_of_lt hab) hb
    · show ¬ (a < t.total_lines)
      rw [htt, hct', hlen2]
      push_cast
      omega

/-- Concrete well-formed state for the amended C4 witness: lines 0-1 of a
three-line document are marked. -/
def edC4w : Ed :=
  { edBase with content := [pyS "a", pyS "b", pyS "c"], total_lines := 3,
                mark := some 0, cur_line := 1 }

/-- Witness for the amended C4 at `edC4w` (a yank-deletion of lines 0-1
followed by Undo restores the three original lines). -/
theorem C4_delete_undo_amended_witness :
    (undoStep (delete_lines edC4w true)).content = edC4w.content :=
  C4_delete_undo_amended edC4w true 0 rfl (by decide) (by decide) (by decide) (by decide)
    (by decide) (by decide)

/-- `Editor.__init__` (source lines 296-312) restricted to the editor state:
`height`/`width` come from the terminal size query (with one row reserved for
the status line); `total_lines` is only assigned later by `edit_loop`, so it
is initialised here consistently with the one-line content. -/
def editorInit (tab_size undo_limit height width : Int) : Ed :=
  { content := [[]], total_lines := 1, cur_line := 0, col := 0,
    top_line := 0, row := 0, margin := 0, height := height - 1, width := width,
    mark := none, undo := [], undo_limit := max undo_limit 0, undo_zero := 0,
    changed := [], message := [], fname := [], tab_size := tab_size,
    autoindent := 'y', case_flag := 'n', write_tabs := 'n',
    yank_buffer := [], find_pattern := [] }

/-- The content guard at the top of `Editor.edit_loop` (source lines
800-802): reinstate a single empty line when the content is empty and cache
the line count. -/
def edit_loop_ensure (s : Ed) : Ed :=
  let content := if s.content = [] then [[]] else s.content
  { s with content := content, total_lines := (content.length : Int) }

/-- The `KEY_ZAP` branch of `Editor.handle_edit_keys` (source lines 763-769):
if the shared yank buffer is non-empty, first delete the marked lines when a
mark is set, push a negative-span undo record (text `None`), insert the
buffer's lines at the cursor line and bump `total_lines`. -/
def zap_key (s : Ed) : Ed :=
  if s.yank_buffer ≠ [] then
    let s1 := if s.mark ≠ none then delete_lines s false else s
    let s2 := undo_add s1 s1.cur_line none KEY_NONE (-(s1.yank_buffer.length : Int))
    { s2 with
      content := pySetSlice s2.content s2.cur_line s2.cur_line s2.yank_buffer,
      total_lines := s2.total_lines + (s2.yank_buffer.length : Int) }
  else s

theorem undoStep_negspan (s : Ed) (aa : URec)
    (hlast : s.undo.getLast? = some aa)
    (hak : aa.key ≠ KEY_INDENT) (has : aa.span < 0) :
    (undoStep s).content = pyDelSlice s.content aa.lnum (aa.lnum - aa.span) ∧
    (undoStep s).cur_line = aa.lnum ∧ (undoStep s).col = aa.col ∧
    (undoStep s).mark = none := by
  unfold undoStep
  rw [hlast]
  dsimp only
  rw [if_pos hak]
  try dsimp only
  rw [if_neg (show ¬ (0:Int) ≤ aa.span by omega)]
  try dsimp only
  split_ifs <;> exact ⟨rfl, rfl, rfl, rfl⟩

theorem insert_del_restore {α : Type} (xs : List α) (c : Int) (ys : List α)
    (h0 : 0 ≤ c) (h1 : c ≤ (xs.length : Int)) :
    pyDelSlice (pySetSlice xs c c ys) c (c + (ys.length : Int)) = xs := by
  have hins : pySetSlice xs c c ys = xs.take c.toNat ++ (ys ++ xs.drop c.toNat) := by
    unfold pySetSlice
    rw [normIdx_eq _ _ h0 h1, max_self, List.append_assoc]
  rw [hins]
  have hlen : (xs.take c.toNat ++ (ys ++ xs.drop c.toNat)).length =
      xs.length + ys.length := by
    simp only [List.length_append, List.length_take, List.length_drop]
    omega
  rw [pyDelSlice_eq _ _ _ h0 (by omega) (by rw [hlen]; push_cast; omega)]
  have h1' : (xs.take c.toNat ++ (ys ++ xs.drop c.toNat)).take c.toNat = xs.take c.toNat :=
    List.take_left' (by simp only [List.length_take]; omega)
  have h2' : (xs.take c.toNat ++ (ys ++ xs.drop c.toNat)).drop
      (c + (ys.length : Int)).toNat = xs.drop c.toNat := by
    have hx : (c + (ys.length : Int)).toNat = (xs.take c.toNat ++ ys).length := by
      simp only [List.length_append, List.length_take]
      omega
    rw [hx, ← List.append_assoc, List.drop_left]
  rw [h1', h2', List.take_append_drop]

/-- C5: the line sequence of a document is never empty: the initial state has
exactly one empty-string line; `delete_lines` always leaves at least one line
(exactly one empty-string line when it wiped everything); the `edit_loop`
entry guard reinstates one empty line; and undoing the negative-span record
pushed by a paste (`zap_key` with no mark) deletes exactly the pasted lines,
restoring the non-empty pre-paste content. -/
theorem C5_never_empty :
    (∀ tab undo_limit height width,
      (editorInit tab undo_limit height width).content = [[]]) ∧
    (∀ s yank, (delete_lines s yank).content ≠ [] ∧
      (pyDelSlice s.content (line_range s).1 (line_range s).2 = [] →
        (delete_lines s yank).content = [[]])) ∧
    (∀ s, (edit_loop_ensure s).content ≠ []) ∧
    (∀ s, s.mark = none → s.yank_buffer ≠ [] → s.content ≠ [] →
      0 ≤ s.cur_line → s.cur_line ≤ (s.content.length : Int) → 0 < s.undo_limit →
      (undoStep (zap_key s)).content = s.content ∧ (undoStep (zap_key s)).content ≠ []) := by
  refine ⟨fun tab u h w => rfl, ?_, ?_, ?_⟩
  · intro s yank
    have hcontent : (delete_lines s yank).content =
        (if pyDelSlice s.content (line_range s).1 (line_range s).2 = [] then [[]]
         else pyDelSlice s.content (line_range s).1 (line_range s).2) := by
      unfold delete_lines
      dsimp only
      rw [undo_add_fields _ _ _ _ _ |>.1]
    rw [hcontent]
    constructor
    · split_ifs with h
      · simp
      · exact h
    · intro h
      rw [if_pos h]
  · intro s
    unfold edit_loop_ensure
    dsimp only
    split_ifs with h
    · simp
    · exact h
  · intro s hmark hyank hcont hc0 hc1 hl
    have hk : 0 < s.yank_buffer.length := List.length_pos.mpr hyank
    have hzap : zap_key s =
        { undo_add s s.cur_line none KEY_NONE (-(s.yank_buffer.length : Int)) with
          content := pySetSlice
            (undo_add s s.cur_line none KEY_NONE (-(s.yank_buffer.length : Int))).content
            (undo_add s s.cur_line none KEY_NONE (-(s.yank_buffer.length : Int))).cur_line
            (undo_add s s.cur_line none KEY_NONE (-(s.yank_buffer.length : Int))).cur_line
            (undo_add s s.cur_line none KEY_NONE (-(s.yank_buffer.length : Int))).yank_buffer,
          total_lines :=
            (undo_add s s.cur_line none KEY_NONE (-(s.yank_buffer.length : Int))).total_lines +
            ((undo_add s s.cur_line none KEY_NONE
              (-(s.yank_buffer.length : Int))).yank_buffer.length : Int) } := by
      unfold zap_key
      rw [if_pos hyank]
      dsimp only
      rw [if_neg (by rw [hmark]; simp)]
    set u := undo_add s s.cur_line none KEY_NONE (-(s.yank_buffer.length : Int)) with hu
    have hf := undo_add_fields s s.cur_line none KEY_NONE (-(s.yank_buffer.length : Int))
    have hgl : (zap_key s).undo.getLast? =
        some ⟨s.cur_line, -(s.yank_buffer.length : Int), none, KEY_NONE, s.col⟩ := by
      rw [hzap]
      exact undo_add_getLast s s.cur_line none _ hl
    have hstep := undoStep_negspan (zap_key s)
      ⟨s.cur_line, -(s.yank_buffer.length : Int), none, KEY_NONE, s.col⟩ hgl
      (by show KEY_NONE ≠ KEY_INDENT; decide)
      (by show -(s.yank_buffer.length : Int) < 0; omega)
    have hcontz : (zap_key s).content = pySetSlice s.content s.cur_line s.cur_line
        s.yank_buffer := by
      rw [hzap]
      dsimp only
      rw [hf.1, hf.2.1, hf.2.2.2.2.2.2]
    have hres : (undoStep (zap_key s)).content = s.content := by
      rw [hstep.1, hcontz]
      have harith : s.cur_line - -((s.yank_buffer.length : Nat) : Int) =
          s.cur_line + (s.yank_buffer.length : Int) := by ring
      rw [show (⟨s.cur_line, -(s.yank_buffer.length : Int), none, KEY_NONE, s.col⟩ :
            URec).lnum = s.cur_line from rfl] at *
      calc pyDelSlice (pySetSlice s.content s.cur_line s.cur_line s.yank_buffer)
            s.cur_line (s.cur_line - -(s.yank_buffer.length : Int))
          = pyDelSlice (pySetSlice s.content s.cur_line s.cur_line s.yank_buffer)
            s.cur_line (s.cur_line + (s.yank_buffer.length : Int)) := by rw [harith]
        _ = s.content := insert_del_restore s.content s.cur_line s.yank_buffer hc0 hc1
    exact ⟨hres, by rw [hres]; exact hcont⟩

/-- Concrete state for the C5 witness: a non-empty yank buffer and no mark. -/
def edC5 : Ed := { edBase with yank_buffer := [pyS "y"] }

/-- Witness for C5 at `edC5`: pasting and undoing leaves the (non-empty)
original content. -/
theorem C5_never_empty_witness :
    (undoStep (zap_key edC5)).content = edC5.content ∧
      (undoStep (zap_key edC5)).content ≠ [] :=
  C5_never_empty.2.2.2 edC5 rfl (by decide) (by decide) (by decide) (by decide) (by decide)

/-- Python `s.rstrip(" ")`: remove trailing spaces. -/
def rstripSpaces (l : PyStr) : PyStr :=
  (l.reverse.dropWhile (fun c => c = ' ')).reverse

/-- `Editor.packtabs` (source lines 833-843): walk the line in 8-character
chunks; a chunk with trailing spaces is replaced by its stripped text plus
one tab. -/
def packtabs (s : PyStr) : PyStr :=
  if s = [] then []
  else
    let c := s.take 8
    let cr := rstripSpaces c
    (if c ≠ cr then cr ++ ['\t'] else c) ++ packtabs (s.drop 8)
termination_by s.length
decreasing_by
  simp only [List.length_drop]
  have : s.length ≠ 0 := by
    intro h
    exact (by assumption : ¬ s = []) (List.length_eq_zero.mp h)
  omega

/-- File-system model for `put_file`: an association list from file names to
file contents (most recent binding first). -/
abbrev FS := List (PyStr × PyStr)

/-- Look a file up. -/
def fsGet (fs : FS) (name : PyStr) : Option PyStr :=
  (fs.find? (fun p => p.1 == name)).map (fun p => p.2)

/-- Create or overwrite a file. -/
def fsSet (fs : FS) (name : PyStr) (content : PyStr) : FS :=
  (name, content) :: fs.filter (fun p => p.1 != name)

/-- `os.unlink`. -/
def fsDel (fs : FS) (name : PyStr) : FS :=
  fs.filter (fun p => p.1 != name)

/-- The character stream `put_file` writes to the temp file: each line —
passed through `packtabs` when the write-tabs option is on — followed by one
newline. -/
def put_file_data (s : Ed) : PyStr :=
  (s.content.map (fun l => (if s.write_tabs = 'y' then packtabs l else l) ++ ['\n'])).flatten

/-- The temp file name used by `put_file`. -/
def tmpName : PyStr := pyS "tmpfile.pye"

/-- Result of a modelled save: the final file system and whether `put_file`
returned without raising. -/
structure SaveResult where
  fs : FS
  ok : Bool
  deriving Repr, DecidableEq

/-- Effect model of `Editor.put_file` (source lines 864-876): write the
rendered buffer to `tmpfile.pye`, `try: os.unlink(fname) except: pass`, then
`os.rename` the temp file onto the target.  The booleans say whether each
fallible step succeeds; a failed write leaves some partial data in the temp
file (`partialData`), a failed unlink is swallowed, and a failed rename
raises after the unlink has already happened. -/
def put_file_run (s : Ed) (fname : PyStr) (fs : FS)
    (writeOk unlinkOk renameOk : Bool) (partialData : PyStr) : SaveResult :=
  if ¬ writeOk then ⟨fsSet fs tmpName partialData, false⟩
  else
    let fs1 := fsSet fs tmpName (put_file_data s)
    let fs2 := if unlinkOk then fsDel fs1 fname else fs1
    if ¬ renameOk then ⟨fs2, false⟩
    else ⟨fsSet (fsDel fs2 tmpName) fname (put_file_data s), true⟩

theorem find_filter_ne (l : FS) (n m : PyStr) (h : m ≠ n) :
    (l.filter (fun p => p.1 != n)).find? (fun p => p.1 == m) =
      l.find? (fun p => p.1 == m) := by
  induction l with
  | nil => rfl
  | cons p l ih =>
    by_cases hp : p.1 = m
    · have h1 : (p.1 != n) = true := by simp [hp]; exact h
      have h2 : (p.1 == m) = true := by simp [hp]
      rw [@List.filter_cons_of_pos _ (fun q => q.1 != n) p l h1,
          @List.find?_cons_of_pos _ (fun q => q.1 == m) p _ h2,
          @List.find?_cons_of_pos _ (fun q => q.1 == m) p l h2]
    · have h2 : ¬ ((fun q : PyStr × PyStr => q.1 == m) p = true) := by simp [hp]
      by_cases h1 : p.1 = n
      · rw [@List.filter_cons_of_neg _ (fun q => q.1 != n) p l (by simp [h1]), ih,
            @List.find?_cons_of_neg _ (fun q => q.1 == m) p l h2]
      · rw [@List.filter_cons_of_pos _ (fun q => q.1 != n) p l (by simp; exact h1),
            @List.find?_cons_of_neg _ (fun q => q.1 == m) p _ h2,
            @List.find?_cons_of_neg _ (fun q => q.1 == m) p l h2, ih]

theorem fsGet_set_self (fs : FS) (n : PyStr) (v : PyStr) :
    fsGet (fsSet fs n v) n = some v := by
  unfold fsGet fsSet
  rw [List.find?_cons_of_pos _ (by simp)]
  rfl

theorem fsGet_set_ne (fs : FS) (n m : PyStr) (v : PyStr) (h : m ≠ n) :
    fsGet (fsSet fs n v) m = fsGet fs m := by
  unfold fsGet fsSet
  rw [List.find?_cons_of_neg _ (by simp; intro he; exact absurd he.symm h),
      find_filter_ne fs n m h]

/-- C6 counterexample: a save whose final rename step fails has already
unlinked the previously existing file at the target name — the original
content survives only in the temp file, refuting "a failed save has not
unlinked or replaced the existing file". -/
theorem C6_put_file_cex :
    (put_file_run edBase (pyS "f.txt") [(pyS "f.txt", pyS "old")] true true false []).ok
        = false ∧
      fsGet (put_file_run edBase (pyS "f.txt") [(pyS "f.txt", pyS "old")]
        true true false []).fs (pyS "f.txt") = none ∧
      fsGet [(pyS "f.txt", pyS "old")] (pyS "f.txt") = some (pyS "old") :=
  ⟨by decide, by decide, by decide⟩

/-- C6 (amended): a save that fails while writing the temp file leaves the
file at the target name untouched; a save in which write and rename succeed
returns successfully with the target holding each line followed by a single
newline (the lines tab-packed only when the write-tabs option is on), via
the write-to-temp-then-rename sequence; but a save that fails at the final
rename after a successful unlink has already removed the original (see the
counterexample), so the sequence is not atomic in that one case. -/
theorem C6_put_file_amended (s : Ed) (fname : PyStr) (fs : FS)
    (unlinkOk renameOk : Bool) (partialData : PyStr)
    (hname : fname ≠ tmpName) :
    ((put_file_run s fname fs false unlinkOk renameOk partialData).ok = false ∧
      fsGet (put_file_run s fname fs false unlinkOk renameOk partialData).fs fname =
        fsGet fs fname) ∧
    ((put_file_run s fname fs true unlinkOk true partialData).ok = true ∧
      fsGet (put_file_run s fname fs true unlinkOk true partialData).fs fname =
        some (put_file_data s)) ∧
    (s.write_tabs ≠ 'y' →
      put_file_data s = (s.content.map (fun l => l ++ ['\n'])).flatten) := by
  refine ⟨⟨rfl, ?_⟩, ⟨rfl, ?_⟩, ?_⟩
  · show fsGet (fsSet fs tmpName partialData) fname = fsGet fs fname
    exact fsGet_set_ne fs tmpName fname partialData hname
  · show fsGet (fsSet _ fname (put_file_data s)) fname = some (put_file_data s)
    exact fsGet_set_self _ fname (put_file_data s)
  · intro h
    unfold put_file_data
    simp only [if_neg h]

/-- Witness for the amended C6: a fully successful save of `edBase` onto an
existing file replaces its content with the rendered buffer. -/
theorem C6_put_file_amended_witness :
    (put_file_run edBase (pyS "f.txt") [(pyS "f.txt", pyS "old")] true true true []).ok
        = true ∧
      fsGet (put_file_run edBase (pyS "f.txt") [(pyS "f.txt", pyS "old")]
        true true true []).fs (pyS "f.txt") = some (put_file_data edBase) :=
  (C6_put_file_amended edBase (pyS "f.txt") [(pyS "f.txt", pyS "old")] true true []
    (by decide)).2.1

/-- Characters Python `str.strip()` removes. -/
def isPySpace (c : Char) : Bool :=
  c = ' ' || c = '\t' || c = '\n' || c = '\x0b' || c = '\x0c' || c = '\r'

/-- Python `s.strip()`. -/
def pyStrip (s : PyStr) : PyStr :=
  ((s.dropWhile isPySpace).reverse.dropWhile isPySpace).reverse

/-- Python `str.lower()` (ASCII range; none of the inputs here use the
Latin-1 letters). -/
def asciiLowerChar (c : Char) : Char :=
  if 'A' ≤ c ∧ c ≤ 'Z' then Char.ofNat (c.toNat + 32) else c

/-- Python `s.lower()`. -/
def pyLower (s : PyStr) : PyStr := s.map asciiLowerChar

/-- Python `s.split(sep)` for a one-character separator (always yields one
more field than there are separators; `"".split(",") == [""]`). -/
def pySplit (s : PyStr) (sep : Char) : List PyStr :=
  s.foldr (fun c acc => if c = sep then [] :: acc else (c :: acc.headD []) :: acc.tail) [[]]

/-- Python `int(s)`: strip whitespace, then an optional sign followed by one
or more decimal digits (Python additionally accepts single underscores
between digits; no input in this development uses them).  The `Except` error
models the `ValueError`. -/
def pyInt (s : PyStr) : Except Unit Int :=
  let core := fun (ds : PyStr) =>
    if ds ≠ [] ∧ ds.all (fun c => c.isDigit) then
      Except.ok (ds.foldl (fun acc c => acc * 10 + ((c.toNat - '0'.toNat : Nat) : Int)) 0)
    else Except.error ()
  match pyStrip s with
  | '+' :: rest => core rest
  | '-' :: rest => (core rest).map (fun v => -v)
  | rest => core rest

/-- The `KEY_GOTO` branch of `Editor.handle_edit_keys` (source lines
588-592), with the prompt result passed in (`none` models a cancelled
prompt).  A raising `int(line)` is the `Except` error; no field has been
assigned at that point. -/
def goto_handle (s : Ed) (input : Option PyStr) : Except Unit Ed :=
  match input with
  | none => Except.ok s
  | some line =>
    if line = [] then Except.ok s
    else
      match pyInt line with
      | Except.error e => Except.error e
      | Except.ok v => Except.ok { s with cur_line := v - 1, row := Int.fdiv s.height 2 }

/-- The message the `except Exception` guard of `edit_loop` would store for a
non-numeric goto target (`"{!r}".format(err)`; the exact text is not part of
any checked property). -/
def gotoErrMsg : PyStr := pyS "ValueError"

/-- One `KEY_GOTO` dispatch as seen from `edit_loop` (source lines 805-829):
a raising handler leaves the state it had reached — for the goto branch the
unmodified prior state — and stores the error text as the status message. -/
def goto_step (s : Ed) (input : Option PyStr) : Ed :=
  match goto_handle s input with
  | Except.ok t => t
  | Except.error _ => { s with message := gotoErrMsg }

/-- The fourth settings field (`if res[3]: self.write_tabs = ...`) of the
`KEY_TOGGLE` branch. -/
def toggle_field4 (s : Ed) (res : List PyStr) : Ed :=
  match res[3]? with
  | none => s
  | some f3 =>
    if f3 ≠ [] then
      { s with write_tabs := if f3.headD ' ' = 'y' then 'y' else 'n' }
    else s

/-- The `KEY_TOGGLE` branch of `Editor.handle_edit_keys` (source lines
593-604): autoindent is flipped unconditionally, then the settings prompt
result is parsed inside `try: ... except: pass` — the four fields are
applied left to right and the first failure (cancelled prompt, missing
field, non-numeric tab size) abandons the rest while keeping what was
already assigned. -/
def toggle_key (s : Ed) (input : Option PyStr) : Ed :=
  let s := { s with autoindent := if s.autoindent ≠ 'y' then 'y' else 'n' }
  match input with
  | none => s
  | some pat =>
    let res := (pySplit pat ',').map (fun f => pyLower (pyStrip f))
    match res[0]? with
    | none => s
    | some f0 =>
      let s := if f0 ≠ [] then
          { s with case_flag := if f0.headD ' ' = 'y' then 'y' else 'n' } else s
      match res[1]? with
      | none => s
      | some f1 =>
        let s := if f1 ≠ [] then
            { s with autoindent := if f1.headD ' ' = 'y' then 'y' else 'n' } else s
        match res[2]? with
        | none => s
        | some f2 =>
          if f2 = [] then toggle_field4 s res
          else
            match pyInt f2 with
            | Except.error _ => s
            | Except.ok v => toggle_field4 { s with tab_size := v } res

/-- C7 counterexample: the settings line `"y,y,zz,y"` is malformed (its tab
size field is not numeric), yet the handler has already applied the first
field, changing the case-sensitivity flag from `'n'` to `'y'` — the prior
state is not left unchanged. -/
theorem C7_prompt_cex :
    (toggle_key edBase (some (pyS "y,y,zz,y"))).case_flag = 'y' ∧
      edBase.case_flag = 'n' ∧
      (toggle_key edBase none).autoindent ≠ edBase.autoindent :=
  ⟨by decide, by decide, by decide⟩

/-- C7 (amended): no uncaught fault escapes either prompt.  A non-numeric
goto target leaves the whole state unchanged apart from the status message
(the `int` raises before any assignment and `edit_loop` catches it).  A
settings line whose tab-size field is present but non-numeric leaves the tab
size, write-tabs flag and cursor unchanged — but the Toggle key has already
flipped autoindent and the fields before the malformed one have been
applied, as the counterexample shows. -/
theorem C7_prompt_amended (s : Ed) :
    (∀ line : PyStr, line ≠ [] → pyInt line = Except.error () →
      goto_step s (some line) = { s with message := gotoErrMsg }) ∧
    (∀ pat f2,
      ((pySplit pat ',').map (fun f => pyLower (pyStrip f)))[2]? = some f2 →
      f2 ≠ [] → pyInt f2 = Except.error () →
      (toggle_key s (some pat)).tab_size = s.tab_size ∧
      (toggle_key s (some pat)).write_tabs = s.write_tabs ∧
      (toggle_key s (some pat)).cur_line = s.cur_line ∧
      (toggle_key s (some pat)).col = s.col) := by
  constructor
  · intro line hne herr
    unfold goto_step goto_handle
    dsimp only
    rw [if_neg hne, herr]
  · intro pat f2 hf2 hne herr
    unfold toggle_key
    dsimp only
    have hlen : 2 < ((pySplit pat ',').map (fun f => pyLower (pyStrip f))).length := by
      rcases List.getElem?_eq_some.mp hf2 with ⟨h, _⟩
      exact h
    rw [List.getElem?_eq_getElem (by omega : 0 < ((pySplit pat ',').map
          (fun f => pyLower (pyStrip f))).length),
        List.getElem?_eq_getElem (by omega : 1 < ((pySplit pat ',').map
          (fun f => pyLower (pyStrip f))).length), hf2]
    dsimp only
    rw [if_neg hne, herr]
    dsimp only
    split_ifs <;> exact ⟨rfl, rfl, rfl, rfl⟩

/-- Witness for the amended C7 at `edBase` with goto input `"abc"` and
settings input `"y,y,zz,y"`. -/
theorem C7_prompt_amended_witness :
    goto_step edBase (some (pyS "abc")) = { edBase with message := gotoErrMsg } ∧
      (toggle_key edBase (some (pyS "y,y,zz,y"))).tab_size = edBase.tab_size :=
  ⟨(C7_prompt_amended edBase).1 (pyS "abc") (by decide) rfl,
   ((C7_prompt_amended edBase).2 (pyS "y,y,zz,y") (pyS "zz") rfl (by decide) rfl).1⟩

/-- `Editor.spaces` (source lines 418-420): with no position, the number of
leading spaces of the line; with a position, the number of spaces
immediately before that position (the trailing spaces of `line[:pos]`). -/
def spaces (line : PyStr) (pos : Option Int) : Int :=
  match pos with
  | none => ((line.length - (line.dropWhile (fun c => c = ' ')).length : Nat) : Int)
  | some p =>
    (((pySliceTo line p).length - (rstripSpaces (pySliceTo line p)).length : Nat) : Int)

/-- The `KEY_BACKTAB` handler of `Editor.handle_edit_keys` with no active
mark (source lines 712-717): drop `min((col-1) % tab_size + 1, spaces(l, col))`
characters immediately preceding the cursor (Python `%` on a positive
divisor is `Int.emod`); a no-op when no space precedes the cursor. -/
def backtab_nomark (s : Ed) : Ed :=
  let l := pyGet s.content s.cur_line []
  let ni := min ((s.col - 1).emod s.tab_size + 1) (spaces l (some s.col))
  if 0 < ni then
    let s1 := undo_add s s.cur_line (some [l]) KEY_BACKTAB 1
    { s1 with
      content := pySet s1.content s.cur_line (pySliceTo l (s.col - ni) ++ pySliceFrom l s.col),
      col := s.col - ni }
  else s

/-- The document state of the C8 scenario: tab size 4, single line `"    x"`,
no mark, cursor column 5. -/
def edC8 : Ed := { edBase with content := [pyS "    x"], col := 5 }

/-- C8 counterexample: in the claimed scenario Shift-Tab is a no-op — the
line stays `"    x"` and the cursor stays at column 5 (in particular the
line does not become `"x"`), because `spaces(l, col)` counts only spaces
immediately before the cursor and the character before column 5 is `x`. -/
theorem C8_backtab_cex :
    (backtab_nomark edC8).content = [pyS "    x"] ∧
      (backtab_nomark edC8).col = 5 ∧
      (backtab_nomark edC8).content ≠ [pyS "x"] :=
  ⟨by decide, by decide, by decide⟩

/-- The C8 scenario with the cursor at column 4 instead, i.e. directly after
the run of leading spaces. -/
def edC8w : Ed := { edBase with content := [pyS "    x"], col := 4 }

/-- C8 (amended): with no mark, Shift-Tab removes up to one tab stop of
spaces immediately preceding the cursor.  At column 5 of `"    x"` (tab size
4) it is a no-op since the preceding character is `x`; at column 4 it
removes the four leading spaces, giving `"x"` with the cursor at column 0. -/
theorem C8_backtab_amended :
    (backtab_nomark edC8).content = edC8.content ∧
      (backtab_nomark edC8).col = edC8.col ∧
      (backtab_nomark edC8w).content = [pyS "x"] ∧
      (backtab_nomark edC8w).col = 0 :=
  ⟨by decide, by decide, by decide, by decide⟩

/-- Python `chr(b).isalpha()` for a byte value: the ASCII letters plus the
Latin-1 letters U+00AA, U+00B5, U+00BA, U+00C0-U+00D6, U+00D8-U+00F6 and
U+00F8-U+00FF. -/
def pyIsAlphaByte (b : Nat) : Bool :=
  (0x41 ≤ b && b ≤ 0x5a) || (0x61 ≤ b && b ≤ 0x7a) || b == 0xaa || b == 0xb5 ||
    b == 0xba || (0xc0 ≤ b && b ≤ 0xd6) || (0xd8 ≤ b && b ≤ 0xf6) ||
    (0xf8 ≤ b && b ≤ 0xff)

/-- The terminator rule of `get_input`'s escape accumulation (source line
350): a `~` (0x7e) or an alphabetic byte other than `O` (0x4f). -/
def isEscTerm (b : Nat) : Bool :=
  b == 0x7e || (pyIsAlphaByte b && b != 0x4f)

/-- The inner accumulation loop of `get_input` (source lines 347-351): keep
reading bytes until the terminator rule fires; returns the accumulated bytes
(terminator included) and the rest of the stream.  `none` models blocking
forever on an exhausted stream. -/
def escAccum : List Nat → Option (List Nat × List Nat)
  | [] => none
  | b :: rest =>
    if isEscTerm b then some ([b], rest)
    else
      match escAccum rest with
      | none => none
      | some (acc, r) => some (b :: acc, r)

theorem escAccum_length : ∀ (l acc r : List Nat), escAccum l = some (acc, r) →
    acc.length + r.length = l.length ∧ 0 < acc.length := by
  intro l
  induction l with
  | nil =>
    intro acc r h
    simp [escAccum] at h
  | cons b rest ih =>
    intro acc r h
    unfold escAccum at h
    split_ifs at h with hterm
    · cases h
      simp only [List.length_cons, List.length_nil]
      omega
    · cases hrec : escAccum rest with
      | none => rw [hrec] at h; cases h
      | some p =>
        obtain ⟨acc', r'⟩ := p
        rw [hrec] at h
        cases h
        have := ih acc' r hrec
        simp only [List.length_cons]
        omega

theorem escAccum_shape : ∀ (l acc r : List Nat), escAccum l = some (acc, r) →
    ∃ pre t, acc = pre ++ [t] ∧ isEscTerm t = true ∧ ∀ x ∈ pre, isEscTerm x = false := by
  intro l
  induction l with
  | nil =>
    intro acc r h
    simp [escAccum] at h
  | cons b rest ih =>
    intro acc r h
    unfold escAccum at h
    split_ifs at h with hterm
    · cases h
      exact ⟨[], b, rfl, hterm, by simp⟩
    · cases hrec : escAccum rest with
      | none => rw [hrec] at h; cases h
      | some p =>
        obtain ⟨acc', r'⟩ := p
        rw [hrec] at h
        cases h
        obtain ⟨pre, t, hpt, ht, hpre⟩ := ih acc' r hrec
        refine ⟨b :: pre, t, by rw [hpt]; rfl, ht, ?_⟩
        intro x hx
        rcases List.mem_cons.mp hx with hx | hx
        · rw [hx]
          simpa using hterm
        · exact hpre x hx

/-- `Editor.KEYMAP` (source lines 238-288), full non-BASIC build, as a
byte-sequence/key-code association list. -/
def KEYMAP : List (List Nat × Int) := [
  ([0x1b, 0x5b, 0x41], KEY_UP),
  ([0x1b, 0x5b, 0x42], KEY_DOWN),
  ([0x1b, 0x5b, 0x44], KEY_LEFT),
  ([0x1b, 0x5b, 0x43], KEY_RIGHT),
  ([0x1b, 0x5b, 0x48], KEY_HOME),
  ([0x1b, 0x4f, 0x48], KEY_HOME),
  ([0x1b, 0x5b, 0x31, 0x7e], KEY_HOME),
  ([0x1b, 0x5b, 0x46], KEY_END),
  ([0x1b, 0x4f, 0x46], KEY_END),
  ([0x1b, 0x5b, 0x34, 0x7e], KEY_END),
  ([0x1b, 0x5b, 0x35, 0x7e], KEY_PGUP),
  ([0x1b, 0x5b, 0x36, 0x7e], KEY_PGDN),
  ([0x03], KEY_QUIT),
  ([0x0d], KEY_ENTER),
  ([0x7f], KEY_BACKSPACE),
  ([0x1b, 0x5b, 0x33, 0x7e], KEY_DELETE),
  ([0x1b, 0x5b, 0x5a], KEY_BACKTAB),
  ([0x11], KEY_QUIT),
  ([0x0a], KEY_ENTER),
  ([0x08], KEY_BACKSPACE),
  ([0x13], KEY_WRITE),
  ([0x06], KEY_FIND),
  ([0x0e], KEY_FIND_AGAIN),
  ([0x07], KEY_GOTO),
  ([0x05], KEY_REDRAW),
  ([0x1a], KEY_UNDO),
  ([0x09], KEY_TAB),
  ([0x15], KEY_BACKTAB),
  ([0x12], KEY_REPLC),
  ([0x18], KEY_YANK),
  ([0x16], KEY_ZAP),
  ([0x04], KEY_DUP),
  ([0x0c], KEY_MARK),
  ([0x14], KEY_FIRST),
  ([0x02], KEY_LAST),
  ([0x01], KEY_TOGGLE),
  ([0x17], KEY_NEXT),
  ([0x0f], KEY_GET),
  ([0x1b, 0x5b, 0x4d], KEY_MOUSE),
  ([0x1b, 0x5b, 0x31, 0x3b, 0x35, 0x48], KEY_FIRST),
  ([0x1b, 0x5b, 0x31, 0x3b, 0x35, 0x46], KEY_LAST),
  ([0x1b, 0x5b, 0x33, 0x3b, 0x35, 0x7e], KEY_YANK),
  ([0x0b], KEY_MATCH)]

/-- The `in_buffer in self.KEYMAP` lookup. -/
def keymapLookup (bs : List Nat) : Option Int :=
  (KEYMAP.find? (fun p => p.1 == bs)).map (fun p => p.2)

/-- The three-byte mouse report read of `get_input` (source lines 357-366):
wheel codes 0x61/0x60 become scroll events, everything else a pointer
event. -/
def mouse_decode (rest : List Nat) : Option (Int × List Nat) :=
  match rest with
  | f :: _x :: _y :: r2 =>
    some ((if f = 0x61 then KEY_SCRLDN else if f = 0x60 then KEY_SCRLUP else KEY_MOUSE), r2)
  | _ => none

/-- `Editor.get_input` (source lines 343-369) over a byte stream: returns
one decoded logical key event and the remaining stream (`none` models
blocking on an exhausted stream).  A non-ESC byte forms a one-byte buffer;
ESC accumulates an escape sequence; a buffer found in `KEYMAP` yields its
code (the mouse prefix reading three more bytes); an unknown single byte is
returned as a character event; an unknown escape sequence is discarded and
the read loop continues. -/
def get_input : List Nat → Option (Int × List Nat)
  | [] => none
  | b :: rest =>
    if b = 0x1b then
      match h : escAccum rest with
      | none => none
      | some (acc, rest') =>
        match keymapLookup (0x1b :: acc) with
        | some c => if c = KEY_MOUSE then mouse_decode rest' else some (c, rest')
        | none =>
          if (0x1b :: acc).length = 1 then some ((0x1b : Int), rest')
          else get_input rest'
    else
      match keymapLookup [b] with
      | some c => if c = KEY_MOUSE then mouse_decode rest else some (c, rest)
      | none => some ((b : Int), rest)
termination_by l => l.length
decreasing_by
  have := escAccum_length rest acc rest' h
  simp only [List.length_cons]
  omega

/-- C9: `get_input` returns exactly one logical key event per call: a single
byte that is not the escape byte and not in the key table is returned
directly as a character event whose code is the byte value; an accumulated
escape sequence — terminated by `~` or an alphabetic byte other than `O`,
everything before the terminator being non-terminating — that is not in the
key table is silently discarded, and decoding continues on the remaining
stream with no event emitted for the sequence. -/
theorem C9_get_input (b : Nat) (rest acc rest' : List Nat) :
    (b ≠ 0x1b → keymapLookup [b] = none → get_input (b :: rest) = some ((b : Int), rest)) ∧
    (escAccum rest = some (acc, rest') → keymapLookup (0x1b :: acc) = none →
      get_input (0x1b :: rest) = get_input rest') ∧
    (escAccum rest = some (acc, rest') →
      ∃ pre t, acc = pre ++ [t] ∧ isEscTerm t = true ∧ ∀ x ∈ pre, isEscTerm x = false) := by
  refine ⟨?_, ?_, fun h => escAccum_shape rest acc rest' h⟩
  · intro hb hl
    rw [get_input]
    rw [if_neg hb, hl]
  · intro hacc hl
    rw [get_input]
    rw [if_pos rfl, hacc]
    dsimp only
    rw [hl]
    dsimp only
    have hlen := escAccum_length rest acc rest' hacc
    rw [if_neg (by simp only [List.length_cons]; omega)]

/-- Witness for C9: byte 0x71 (`q`) is not in the key table and decodes to
itself as a character event; the unknown escape sequence ESC `[` `Q` is
discarded and decoding continues on the remaining stream. -/
theorem C9_get_input_witness :
    get_input [0x71, 0x61] = some ((0x71 : Int), [0x61]) ∧
      get_input [0x1b, 0x5b, 0x51, 0x71] = get_input [0x71] :=
  ⟨(C9_get_input 0x71 [0x61] [] []).1 (by decide) (by decide),
   (C9_get_input 0x1b [0x5b, 0x51, 0x71] [0x5b, 0x51] [0x71]).2.1 (by decide) (by decide)⟩

/-- Python `s.find(sub)`: index of the first occurrence, `-1` if absent. -/
def pyFindSub (s pat : PyStr) : Int :=
  match (List.range (s.length + 1)).find? (fun i => (s.drop i).take pat.length == pat) with
  | some i => (i : Int)
  | none => -1

/-- The body of the search loop of `Editor.find_in_file` (source lines
459-468), with the number of remaining lines as structural fuel: `range(
cur_line, end)` iterates `end - line` times.  The first line is scanned from
`spos`, later lines from 0; when the search is case-insensitive the line
slice is lowered (the pattern was lowered by the caller). -/
def findFromAux (content : List PyStr) (caseY : Bool) (pat : PyStr) :
    Nat → Int → Int → Option (Int × Int)
  | 0, _, _ => none
  | fuel + 1, line, spos =>
    let l := pyGet content line []
    let m := if caseY then pyFindSub (pySliceFrom l spos) pat
             else pyFindSub (pyLower (pySliceFrom l spos)) pat
    if 0 ≤ m then some (line, m + spos)
    else findFromAux content caseY pat fuel (line + 1) 0

/-- The search loop `for line in range(cur_line, end)` of
`Editor.find_in_file`: `none` is the loop's `else` (no match) outcome. -/
def findFrom (content : List PyStr) (caseY : Bool) (pat : PyStr)
    (line endl spos : Int) : Option (Int × Int) :=
  findFromAux content caseY pat (endl - line).toNat line spos

/-- `Editor.find_in_file` (source lines 454-474): remember the pattern in
the shared `find_pattern` first, lower it unless the search is
case-sensitive, and scan; on a match move the cursor there and return the
pattern length, otherwise set a "No match" message and return 0. -/
def find_in_file (s : Ed) (pattern : PyStr) (pos endl : Int) : Ed × Int :=
  let s1 := { s with find_pattern := pattern }
  let pat := if s1.case_flag ≠ 'y' then pyLower pattern else pattern
  match findFrom s1.content (s1.case_flag == 'y') pat s1.cur_line endl pos with
  | none => ({ s1 with message := pyS "No match: " ++ pattern }, 0)
  | some (line, col) => ({ s1 with col := col, cur_line := line }, (pattern.length : Int))

/-- C10: `find_in_file` overwrites the shared last-search pattern with the
requested pattern before the search runs, even when no match is found; and
on a failed search (the loop finds no match) it returns 0 with the cursor
line and cursor column unchanged, only the status message being set. -/
theorem C10_find_in_file (s : Ed) (pattern : PyStr) (pos endl : Int) :
    (find_in_file s pattern pos endl).1.find_pattern = pattern ∧
    (findFrom s.content (s.case_flag == 'y')
        (if s.case_flag ≠ 'y' then pyLower pattern else pattern) s.cur_line endl pos = none →
      (find_in_file s pattern pos endl).2 = 0 ∧
      (find_in_file s pattern pos endl).1.cur_line = s.cur_line ∧
      (find_in_file s pattern pos endl).1.col = s.col ∧
      (find_in_file s pattern pos endl).1.message = pyS "No match: " ++ pattern) := by
  constructor
  · unfold find_in_file
    dsimp only
    split <;> rfl
  · intro h
    unfold find_in_file
    dsimp only
    rw [h]
    exact ⟨rfl, rfl, rfl, rfl⟩

/-- Witness for C10 at `edBase`: searching for `"zzz"` in `["hello"]` fails,
the shared pattern is updated and the cursor stays put. -/
theorem C10_find_in_file_witness :
    (find_in_file edBase (pyS "zzz") 0 1).1.find_pattern = pyS "zzz" ∧
      (find_in_file edBase (pyS "zzz") 0 1).2 = 0 ∧
      (find_in_file edBase (pyS "zzz") 0 1).1.cur_line = edBase.cur_line :=
  ⟨(C10_find_in_file edBase (pyS "zzz") 0 1).1,
   ((C10_find_in_file edBase (pyS "zzz") 0 1).2 (by decide)).1,
   ((C10_find_in_file edBase (pyS "zzz") 0 1).2 (by decide)).2.1⟩

end PyeVt
